import Mathlib

/-!
Verification of the tool-augmented streaming orchestration engine of `gizmo.py`
(repository `tacocatCLAUS/gizmo-ai`).

The development shallowly embeds, over `List Char` for text and explicit state
passing for the module-level mutable state, the routines the claims are about:

* `streaming_callback` (gizmo.py lines 294-321): the token-stream state machine.
  The global `stream_state` dict becomes the structure `StreamSt`; its console
  prints become an explicit list of `OutEvent`s, where `OutEvent.clearLine`
  models `print("\r\033[K", end="")` (a terminal erases the current line) and
  `OutEvent.text s` models `print(s, end="")`.  `manager(...)` debug prints are
  omitted: with the default `devmode = False` configuration `manager` prints
  nothing.
* `parse_tool_call` (lines 422-440): the regular-expression search
  `⚡️([a-zA-Z0-9_-]+)\s*\((\x7b.*?\x7d)\)` (DOTALL) is implemented directly
  (greedy name and whitespace munching, lazy body scan), and `json.loads` is
  modelled by a strict recursive-descent JSON parser (`json_loads`): numbers are
  modelled as integers, which is irrelevant to the claims settled here.
* `OllamaMCP.call_tool` / `_async_run`'s failure path (lines 151-188),
  `MCPManager.call_tool`, `MCPManager.initialize` and `MCPManager.shutdown_all`
  (lines 202-253): the two `queue.Queue`s become lists, the `threading.Event`
  becomes the boolean `initSet` (its value models whether the event was set
  within the bounded wait), and a Python exception escaping a call is the
  `PyOutcome.raises` constructor.  The background dispatch loop is modelled in
  the states the claims are about: after it has terminated (the failure path of
  `_async_run`, `async_run_except`), no consumer serves the queues, so
  `response_queue.get()` on an empty queue blocks forever (`CallResult.blocked`).
* `handle_tool_execution` (lines 372-420) with the bridge dispatch abstracted
  as a function argument returning a `PyOutcome`.
-/

namespace Gizmo

/-- The tool-call marker `"⚡️"`: U+26A1 HIGH VOLTAGE SIGN followed by
U+FE0F VARIATION SELECTOR-16 — two characters, which is why it can arrive
split across chunk boundaries. -/
def marker : List Char := [Char.ofNat 9889, Char.ofNat 65039]

/-- Python's substring test `m in s`. -/
def pyIn (m : List Char) : List Char → Bool
  | [] => m.isPrefixOf []
  | c :: t => m.isPrefixOf (c :: t) || pyIn m t

/-- Python's `s.split(m)[0]` (for a non-empty separator `m`): the part of `s`
strictly before the first occurrence of `m` (all of `s` if `m` does not occur). -/
def splitHead (m : List Char) : List Char → List Char
  | [] => []
  | c :: t => if m.isPrefixOf (c :: t) then [] else c :: splitHead m t

/-- Python's `s.strip()`: remove leading and trailing whitespace. -/
def pyStrip (s : List Char) : List Char :=
  ((s.dropWhile Char.isWhitespace).reverse.dropWhile Char.isWhitespace).reverse

/-- The module-level `stream_state` dict: `stream` is the flag, stored as the
string `"true"` or `"false"` exactly as in the source, `buffer` the
accumulated text of all chunks seen since the last reset. -/
structure StreamSt where
  stream : String
  buffer : List Char
deriving Repr

/-- A console print of the streaming callback: `text s` is `print(s, end="")`;
`clearLine` is `print("\r\033[K", end="")`, which a terminal renders by erasing
the current line (back to the most recent newline). -/
inductive OutEvent where
  | text (s : List Char)
  | clearLine
deriving Repr, DecidableEq

/-- `streaming_callback` (gizmo.py lines 294-321).  Returns the updated
`stream_state`, the list of print events, and the returned value (always the
chunk itself). -/
def streaming_callback (st : StreamSt) (chunk : List Char) :
    StreamSt × List OutEvent × List Char :=
  let buf := st.buffer ++ chunk
  if pyIn marker buf = true ∧ st.stream = "true" then
    let clean := pyStrip (splitHead marker buf)
    ({ stream := "false", buffer := buf },
     OutEvent.clearLine :: (if clean = [] then [] else [OutEvent.text clean]),
     chunk)
  else if st.stream = "true" then
    ({ stream := st.stream, buffer := buf }, [OutEvent.text chunk], chunk)
  else
    ({ stream := st.stream, buffer := buf }, [], chunk)

/-- Feed the chunks of a generation, in order, through `streaming_callback`,
starting from state `st`; collect the print events. -/
def runFrom (st : StreamSt) : List (List Char) → StreamSt × List OutEvent
  | [] => (st, [])
  | c :: cs =>
    let r := streaming_callback st c
    let rest := runFrom r.1 cs
    (rest.1, r.2.1 ++ rest.2)

/-- The reset state installed before each request (gizmo.py lines 491-492):
`stream_state["stream"] = "true"; stream_state["buffer"] = ""`. -/
def resetState : StreamSt := { stream := "true", buffer := [] }

/-- Run a whole chunk sequence from the reset state. -/
def runStream (chunks : List (List Char)) : StreamSt × List OutEvent :=
  runFrom resetState chunks

/-- The print events of a run whose state is live with accumulated buffer `b`:
specification function mirrored by `runFrom` (lemma `runFrom_events`). -/
def visibleEvents (b : List Char) : List (List Char) → List OutEvent
  | [] => []
  | c :: cs =>
    if pyIn marker (b ++ c) = true then
      let clean := pyStrip (splitHead marker (b ++ c))
      OutEvent.clearLine :: (if clean = [] then [] else [OutEvent.text clean])
    else
      OutEvent.text c :: visibleEvents (b ++ c) cs

/-- Terminal interpretation of `"\r\033[K"`: erase the current line, i.e. drop
everything after the last newline of the screen contents. -/
def clearCurrentLine (acc : List Char) : List Char :=
  (acc.reverse.dropWhile (fun c => c != '\n')).reverse

/-- Render a list of print events on a terminal whose screen holds `acc`. -/
def renderAcc (acc : List Char) : List OutEvent → List Char
  | [] => acc
  | OutEvent.text s :: es => renderAcc (acc ++ s) es
  | OutEvent.clearLine :: es => renderAcc (clearCurrentLine acc) es

/-- The text visible on an (initially empty) terminal after the given prints. -/
def renderEvents (es : List OutEvent) : List Char :=
  renderAcc [] es

/-! Basic facts about the Python substring operations. -/

theorem pyIn_eq_true_iff (m s : List Char) : pyIn m s = true ↔ m <:+: s := by
  induction s with
  | nil => simp [pyIn, List.isPrefixOf_iff_prefix]
  | cons c t ih =>
    simp [pyIn, List.isPrefixOf_iff_prefix, ih, Bool.or_eq_true, List.infix_cons_iff]

theorem pyIn_mono {m b s : List Char} (hb : b <+: s) (h : pyIn m b = true) :
    pyIn m s = true := by
  rw [pyIn_eq_true_iff] at h ⊢
  exact h.trans hb.isInfix

theorem pyIn_append_right {m s : List Char} (t : List Char) (h : pyIn m s = true) :
    pyIn m (s ++ t) = true :=
  pyIn_mono (List.prefix_append s t) h

theorem pyIn_false_mono {m b s : List Char} (hb : b <+: s) (h : pyIn m s = false) :
    pyIn m b = false := by
  cases hpb : pyIn m b with
  | false => rfl
  | true =>
    rw [pyIn_mono hb hpb] at h
    exact absurd h (by decide)

theorem pyIn_length_le {m s : List Char} (h : pyIn m s = true) : m.length ≤ s.length :=
  ((pyIn_eq_true_iff m s).mp h).length_le

/-- Once the separator occurs in `s`, appending more text does not change the
part before its first occurrence. -/
theorem splitHead_append {m s : List Char} (t : List Char) (h : pyIn m s = true) :
    splitHead m (s ++ t) = splitHead m s := by
  induction s with
  | nil =>
    have hm : m = [] := by
      have := (pyIn_eq_true_iff m []).mp h
      simpa using this
    subst hm
    cases t with
    | nil => rfl
    | cons c t' => simp [splitHead, List.isPrefixOf]
  | cons x s' ih =>
    by_cases hp : m <+: x :: s'
    · have hp' : m <+: x :: (s' ++ t) := by
        have := hp.trans (List.prefix_append (x :: s') t)
        simpa using this
      have hpB : m.isPrefixOf (x :: s') = true := List.isPrefixOf_iff_prefix.mpr hp
      have hpB' : m.isPrefixOf (x :: (s' ++ t)) = true := List.isPrefixOf_iff_prefix.mpr hp'
      simp only [List.cons_append, splitHead, List.append_eq]
      rw [if_pos hpB', if_pos hpB]
    · have hs' : pyIn m s' = true := by
        simp only [pyIn, Bool.or_eq_true] at h
        rcases h with h1 | h2
        · exact absurd (List.isPrefixOf_iff_prefix.mp h1) hp
        · exact h2
      have hlen : m.length ≤ s'.length := pyIn_length_le hs'
      have hnp : ¬ m <+: x :: (s' ++ t) := by
        intro hq
        have hm : m = ((x :: s') ++ t).take m.length := by
          have := List.prefix_iff_eq_take.mp hq
          simpa using this
        rw [List.take_append_of_le_length
          (show m.length ≤ (x :: s').length by
            simpa using le_trans hlen (Nat.le_succ _))] at hm
        exact hp (List.prefix_iff_eq_take.mpr hm)
      have hnB : ¬ (m.isPrefixOf (x :: (s' ++ t)) = true) := by
        rw [List.isPrefixOf_iff_prefix]
        exact hnp
      have hnB0 : ¬ (m.isPrefixOf (x :: s') = true) := by
        rw [List.isPrefixOf_iff_prefix]
        exact hp
      simp only [List.cons_append, splitHead, List.append_eq]
      rw [if_neg hnB, if_neg hnB0, ih hs']

/-- Every character of a marker-free prefix `b` of `s` lies in the part of `s`
before the first marker occurrence, or is a character of the marker itself
(the partially emitted marker fragment). -/
theorem mem_splitHead_or_mem {m : List Char} :
    ∀ (s b : List Char), b <+: s → pyIn m b = false →
      ∀ c ∈ b, c ∈ splitHead m s ∨ c ∈ m := by
  intro s
  induction s with
  | nil =>
    intro b hb _ c hc
    rw [List.prefix_nil] at hb
    subst hb
    cases hc
  | cons x s' ih =>
    intro b hb hfb c hc
    by_cases hp : m <+: x :: s'
    · rcases List.prefix_or_prefix_of_prefix hb hp with hbm | hmb
      · exact Or.inr (hbm.subset hc)
      · have hcontra : pyIn m b = true := by
          rw [pyIn_eq_true_iff]
          exact hmb.isInfix
        rw [hcontra] at hfb
        exact absurd hfb (by decide)
    · have hnB : ¬ (m.isPrefixOf (x :: s') = true) := by
        rw [List.isPrefixOf_iff_prefix]
        exact hp
      cases b with
      | nil => cases hc
      | cons y b' =>
        rw [List.cons_prefix_cons] at hb
        obtain ⟨rfl, hb'⟩ := hb
        have hfb' : pyIn m b' = false := by
          simp only [pyIn, Bool.or_eq_false_iff] at hfb
          exact hfb.2
        rcases List.mem_cons.mp hc with rfl | hc'
        · left
          simp only [splitHead]
          rw [if_neg hnB]
          exact List.mem_cons_self _ _
        · rcases ih b' hb' hfb' c hc' with h | h
          · left
            simp only [splitHead]
            rw [if_neg hnB]
            exact List.mem_cons_of_mem _ h
          · exact Or.inr h

theorem clearCurrentLine_eq_nil {acc : List Char} (h : ∀ c ∈ acc, c ≠ '\n') :
    clearCurrentLine acc = [] := by
  have hd : acc.reverse.dropWhile (fun c => c != '\n') = [] :=
    List.dropWhile_eq_nil_iff.mpr (by
      intro x hx
      rw [bne_iff_ne]
      exact h x (List.mem_reverse.mp hx))
  simp [clearCurrentLine, hd]

/-! The three branches of `streaming_callback` as rewriting equations. -/

theorem streaming_callback_detect {st : StreamSt} {chunk : List Char}
    (h1 : pyIn marker (st.buffer ++ chunk) = true) (h2 : st.stream = "true") :
    streaming_callback st chunk =
      ({ stream := "false", buffer := st.buffer ++ chunk },
       OutEvent.clearLine ::
         (if pyStrip (splitHead marker (st.buffer ++ chunk)) = [] then []
          else [OutEvent.text (pyStrip (splitHead marker (st.buffer ++ chunk)))]),
       chunk) := by
  simp [streaming_callback, h1, h2]

theorem streaming_callback_live {st : StreamSt} {chunk : List Char}
    (h1 : pyIn marker (st.buffer ++ chunk) = false) (h2 : st.stream = "true") :
    streaming_callback st chunk =
      ({ stream := st.stream, buffer := st.buffer ++ chunk },
       [OutEvent.text chunk], chunk) := by
  simp [streaming_callback, h1, h2]

theorem streaming_callback_suspended {st : StreamSt} {chunk : List Char}
    (h2 : st.stream = "false") :
    streaming_callback st chunk =
      ({ stream := st.stream, buffer := st.buffer ++ chunk }, [], chunk) := by
  have hne : ("false" : String) ≠ "true" := by decide
  simp [streaming_callback, h2, hne]

/-- A suspended stream stays suspended and prints nothing. -/
theorem runFrom_suspended (cs : List (List Char)) :
    ∀ st : StreamSt, st.stream = "false" →
      (runFrom st cs).1.stream = "false" ∧ (runFrom st cs).2 = [] := by
  induction cs with
  | nil =>
    intro st h
    exact ⟨h, rfl⟩
  | cons c cs ih =>
    intro st h
    have hcb := @streaming_callback_suspended st c h
    simp only [runFrom, hcb]
    exact ih _ h

/-- The stream flag after a run is determined by whether the marker occurs in
the accumulated buffer. -/
theorem runFrom_stream_char (cs : List (List Char)) :
    ∀ st : StreamSt, st.stream = "true" → pyIn marker st.buffer = false →
      (runFrom st cs).1.stream =
        if pyIn marker (st.buffer ++ cs.flatten) = true then "false" else "true" := by
  induction cs with
  | nil =>
    intro st h2 hb
    simp [runFrom, hb, h2]
  | cons c cs ih =>
    intro st h2 hb
    by_cases hd : pyIn marker (st.buffer ++ c) = true
    · have hcond : pyIn marker (st.buffer ++ (c :: cs).flatten) = true := by
        have := pyIn_append_right cs.flatten hd
        rw [List.flatten_cons, ← List.append_assoc]
        exact this
      simp only [runFrom, streaming_callback_detect hd h2, hcond, if_pos rfl]
      exact (runFrom_suspended cs _ rfl).1
    · have hd' : pyIn marker (st.buffer ++ c) = false := by
        rwa [Bool.not_eq_true] at hd
      have step := ih ⟨st.stream, st.buffer ++ c⟩ h2 hd'
      simp only [runFrom, streaming_callback_live hd' h2]
      rw [step]
      rw [List.flatten_cons, ← List.append_assoc]

/-- The print events of a run from a live state are `visibleEvents`. -/
theorem runFrom_events (cs : List (List Char)) :
    ∀ st : StreamSt, st.stream = "true" →
      (runFrom st cs).2 = visibleEvents st.buffer cs := by
  induction cs with
  | nil =>
    intro st _
    rfl
  | cons c cs ih =>
    intro st h
    by_cases hd : pyIn marker (st.buffer ++ c) = true
    · simp only [runFrom, streaming_callback_detect hd h, visibleEvents, hd, if_true]
      rw [(runFrom_suspended cs _ rfl).2, List.append_nil]
    · have hd' : pyIn marker (st.buffer ++ c) = false := by
        rwa [Bool.not_eq_true] at hd
      simp only [runFrom, streaming_callback_live hd' h, visibleEvents, hd']
      rw [if_neg (by simp), ih ⟨st.stream, st.buffer ++ c⟩ h]
      rfl

/-- Without the marker anywhere in the accumulated text, every chunk is
forwarded verbatim, in order. -/
theorem visibleEvents_no_marker (cs : List (List Char)) :
    ∀ b : List Char, pyIn marker (b ++ cs.flatten) = false →
      visibleEvents b cs = cs.map OutEvent.text := by
  induction cs with
  | nil =>
    intro b _
    rfl
  | cons c cs ih =>
    intro b h
    have hbc : pyIn marker (b ++ c) = false := by
      refine pyIn_false_mono ?_ h
      rw [List.flatten_cons, ← List.append_assoc]
      exact List.prefix_append _ _
    have hrest : pyIn marker ((b ++ c) ++ cs.flatten) = false := by
      rw [List.append_assoc, ← List.flatten_cons]
      exact h
    simp only [visibleEvents, hbc]
    rw [if_neg (by simp), ih (b ++ c) hrest]
    rfl

/-- With a marker in the concatenation, rendering the printed events on a
terminal yields the stripped prefix before the first marker, provided no
newline was printed before the marker (the line-erase then retracts the
whole partial line). -/
theorem renderAcc_visible (cs : List (List Char)) :
    ∀ b : List Char, pyIn marker b = false →
      pyIn marker (b ++ cs.flatten) = true →
      (∀ c ∈ b, c ≠ '\n') →
      (∀ c ∈ splitHead marker (b ++ cs.flatten), c ≠ '\n') →
      renderAcc b (visibleEvents b cs) = pyStrip (splitHead marker (b ++ cs.flatten)) := by
  induction cs with
  | nil =>
    intro b hb hc _ _
    rw [List.flatten_nil, List.append_nil, hb] at hc
    exact absurd hc (by decide)
  | cons c cs ih =>
    intro b hb hc hnb hnp
    by_cases hd : pyIn marker (b ++ c) = true
    · have hsplit : splitHead marker (b ++ (c :: cs).flatten) = splitHead marker (b ++ c) := by
        rw [List.flatten_cons, ← List.append_assoc]
        exact splitHead_append _ hd
      rw [hsplit]
      simp only [visibleEvents, hd, if_pos rfl]
      have hclear : clearCurrentLine b = [] := clearCurrentLine_eq_nil hnb
      by_cases hcl : pyStrip (splitHead marker (b ++ c)) = []
      · rw [if_pos hcl, hcl]
        simp [renderAcc, hclear]
      · rw [if_neg hcl]
        simp [renderAcc, hclear]
    · have hd' : pyIn marker (b ++ c) = false := by
        rwa [Bool.not_eq_true] at hd
      have hflat : b ++ (c :: cs).flatten = (b ++ c) ++ cs.flatten := by
        rw [List.flatten_cons, List.append_assoc]
      rw [hflat] at hc hnp ⊢
      have hnbc : ∀ ch ∈ b ++ c, ch ≠ '\n' := by
        intro ch hmem
        rcases mem_splitHead_or_mem ((b ++ c) ++ cs.flatten) (b ++ c)
            (List.prefix_append _ _) hd' ch hmem with h | h
        · exact hnp ch h
        · intro heq
          subst heq
          revert h
          decide
      simp only [visibleEvents, hd']
      rw [if_neg (by simp)]
      show renderAcc (b ++ c) (visibleEvents (b ++ c) cs) = _
      exact ih (b ++ c) hd' hc hnbc hnp

/-- C4: for every chunk sequence whose concatenation never contains the marker
`"⚡️"`, a run from the reset state keeps `stream = "true"` after every prefix of
the sequence, and prints each chunk exactly once, in arrival order, unmodified. -/
theorem streaming_live_no_marker (chunks : List (List Char))
    (h : pyIn marker chunks.flatten = false) :
    (∀ j : Nat, (runStream (chunks.take j)).1.stream = "true") ∧
    (runStream chunks).2 = chunks.map OutEvent.text := by
  constructor
  · intro j
    have hpre : (chunks.take j).flatten <+: chunks.flatten := by
      conv_rhs => rw [← List.take_append_drop j chunks]
      rw [List.flatten_append]
      exact List.prefix_append _ _
    have hj : pyIn marker (chunks.take j).flatten = false := pyIn_false_mono hpre h
    have hchar := runFrom_stream_char (chunks.take j) resetState rfl (by decide)
    rw [runStream, hchar]
    simp [resetState, hj]
  · rw [runStream, runFrom_events chunks resetState rfl]
    exact visibleEvents_no_marker chunks [] (by simpa using h)

/-- Witness for `streaming_live_no_marker` at the chunk sequence `["Hi", "!"]`. -/
theorem streaming_live_no_marker_witness :
    pyIn marker (List.flatten [['H', 'i'], ['!']]) = false ∧
    ((∀ j : Nat, (runStream ([['H', 'i'], ['!']].take j)).1.stream = "true") ∧
      (runStream [['H', 'i'], ['!']]).2 = [['H', 'i'], ['!']].map OutEvent.text) :=
  ⟨by decide, streaming_live_no_marker _ (by decide)⟩

/-- C9: `streaming_callback` returns its input chunk unchanged, whatever the
prior stream state — the consumer of the return value always receives the raw
token stream, even while visible printing is suspended. -/
theorem streaming_callback_returns_chunk (st : StreamSt) (chunk : List Char) :
    (streaming_callback st chunk).2.2 = chunk := by
  by_cases h1 : pyIn marker (st.buffer ++ chunk) = true ∧ st.stream = "true"
  · rw [streaming_callback_detect h1.1 h1.2]
  · by_cases h2 : st.stream = "true"
    · have h1' : pyIn marker (st.buffer ++ chunk) = false := by
        rcases Bool.eq_false_or_eq_true (pyIn marker (st.buffer ++ chunk)) with ht | hf
        · exact absurd ⟨ht, h2⟩ h1
        · exact hf
      rw [streaming_callback_live h1' h2]
    · simp only [streaming_callback]
      rw [if_neg h1, if_neg h2]

/-- C1 counterexample: feeding the chunks `"a "` then `"⚡️"` renders `"a"` as
the visible output, not the prefix `"a "` of the concatenation strictly before
the marker: the source applies `.strip()` to that prefix before reprinting it. -/
theorem streaming_marker_counterexample :
    pyIn marker (List.flatten [['a', ' '], marker]) = true ∧
    renderEvents (runStream [['a', ' '], marker]).2 ≠
      splitHead marker (List.flatten [['a', ' '], marker]) := by
  decide

/-- C1 amended: when the concatenation contains the marker, the stream flag ends
at `"false"`, never returns from `"false"` to `"true"` along the run (so the
transition to suspended happens exactly once), and — provided no newline occurs
before the first marker occurrence, since the emitted line-erase only retracts
the current line — the rendered visible output is the whitespace-stripped prefix
of the concatenation before the first marker occurrence, regardless of how the
marker's characters are split across chunk boundaries. -/
theorem streaming_marker_amended (chunks : List (List Char))
    (h : pyIn marker chunks.flatten = true)
    (hnl : ∀ c ∈ splitHead marker chunks.flatten, c ≠ '\n') :
    (runStream chunks).1.stream = "false" ∧
    (∀ j : Nat, (runStream (chunks.take j)).1.stream = "false" →
      (runStream (chunks.take (j + 1))).1.stream = "false") ∧
    renderEvents (runStream chunks).2 = pyStrip (splitHead marker chunks.flatten) := by
  refine ⟨?_, ?_, ?_⟩
  · have hchar := runFrom_stream_char chunks resetState rfl (by decide)
    rw [runStream, hchar]
    simp [resetState, h]
  · intro j hj
    have hchar := runFrom_stream_char (chunks.take j) resetState rfl (by decide)
    rw [runStream, hchar] at hj
    by_cases hpj : pyIn marker (resetState.buffer ++ (chunks.take j).flatten) = true
    · have hpj' : pyIn marker (chunks.take (j + 1)).flatten = true := by
        refine pyIn_mono ?_ (by simpa [resetState] using hpj)
        have h1 : chunks.take j <+: chunks.take (j + 1) := by
          rw [List.take_succ]
          exact List.prefix_append _ _
        obtain ⟨t, ht⟩ := h1
        rw [← ht, List.flatten_append]
        exact List.prefix_append _ _
      have hchar' := runFrom_stream_char (chunks.take (j + 1)) resetState rfl (by decide)
      rw [runStream, hchar']
      simp [resetState, hpj']
    · rw [if_neg hpj] at hj
      exact absurd hj (by decide)
  · rw [runStream, runFrom_events chunks resetState rfl, renderEvents]
    have hmain := renderAcc_visible chunks [] (by decide) (by simpa using h)
      (by simp) (by simpa using hnl)
    simpa [resetState] using hmain

/-- Witness for `streaming_marker_amended` at the chunks `["Hi ", "⚡", "️" ++ "x"]`,
where the marker arrives split across two chunks. -/
theorem streaming_marker_amended_witness :
    pyIn marker (List.flatten [['H', 'i', ' '], [Char.ofNat 9889], [Char.ofNat 65039, 'x']]) = true ∧
    ((runStream [['H', 'i', ' '], [Char.ofNat 9889], [Char.ofNat 65039, 'x']]).1.stream = "false" ∧
      (∀ j : Nat,
        (runStream ([['H', 'i', ' '], [Char.ofNat 9889], [Char.ofNat 65039, 'x']].take j)).1.stream
            = "false" →
        (runStream ([['H', 'i', ' '], [Char.ofNat 9889], [Char.ofNat 65039, 'x']].take (j + 1))).1.stream
            = "false") ∧
      renderEvents (runStream [['H', 'i', ' '], [Char.ofNat 9889], [Char.ofNat 65039, 'x']]).2 =
        pyStrip (splitHead marker
          (List.flatten [['H', 'i', ' '], [Char.ofNat 9889], [Char.ofNat 65039, 'x']]))) :=
  ⟨by decide, streaming_marker_amended _ (by decide) (by decide)⟩

/-! ## `parse_tool_call` (gizmo.py lines 422-440)

The search pattern is `⚡️([a-zA-Z0-9_-]+)\s*\((\x7b.*?\x7d)\)` with DOTALL.
Its backtracking semantics collapse to determinism here: the name class and
`\s*` munch greedily (backtracking them can never help, as a name character is
neither whitespace nor `(`), and the lazy `.*?` takes the first closing brace
that is immediately followed by `)`. -/

/-- A character matched by the class `[a-zA-Z0-9_-]`. -/
def isNameChar (c : Char) : Bool :=
  c.isAlpha || c.isDigit || c == '_' || c == '-'

/-- A JSON value as produced by `json.loads`, with numbers restricted to
integers (no claim settled here involves a numeric literal). -/
inductive JValue where
  | jnull
  | jbool (b : Bool)
  | jnum (n : Int)
  | jstr (s : List Char)
  | jarr (items : List JValue)
  | jobj (members : List (List Char × JValue))

/-- Value of a hexadecimal digit. -/
def hexVal (c : Char) : Option Nat :=
  if c.isDigit then some (c.toNat - '0'.toNat)
  else if 'a' ≤ c ∧ c ≤ 'f' then some (c.toNat - 'a'.toNat + 10)
  else if 'A' ≤ c ∧ c ≤ 'F' then some (c.toNat - 'A'.toNat + 10)
  else none

/-- Strict JSON string body parser (the opening quote already consumed):
returns the decoded content and the rest after the closing quote.  Control
characters and unknown escapes are rejected, as `json.loads` rejects them. -/
def parseJString : List Char → Option (List Char × List Char)
  | [] => none
  | '"' :: rest => some ([], rest)
  | '\\' :: 'u' :: h1 :: h2 :: h3 :: h4 :: rest =>
    match hexVal h1, hexVal h2, hexVal h3, hexVal h4 with
    | some a, some b, some c, some d =>
      (parseJString rest).map
        (fun r => (Char.ofNat (((a * 16 + b) * 16 + c) * 16 + d) :: r.1, r.2))
    | _, _, _, _ => none
  | '\\' :: e :: rest =>
    let ec : Option Char :=
      if e == '"' then some '"'
      else if e == '\\' then some '\\'
      else if e == '/' then some '/'
      else if e == 'n' then some '\n'
      else if e == 't' then some '\t'
      else if e == 'r' then some '\r'
      else if e == 'b' then some (Char.ofNat 8)
      else if e == 'f' then some (Char.ofNat 12)
      else none
    match ec with
    | some c => (parseJString rest).map (fun r => (c :: r.1, r.2))
    | none => none
  | c :: rest =>
    if c.toNat < 32 then none
    else (parseJString rest).map (fun r => (c :: r.1, r.2))

/-- Accumulate a run of decimal digits. -/
def digitsToNat (acc : Nat) : List Char → Nat × List Char
  | [] => (acc, [])
  | c :: rest =>
    if c.isDigit then digitsToNat (acc * 10 + (c.toNat - '0'.toNat)) rest
    else (acc, c :: rest)

mutual

/-- Fuel-indexed recursive-descent parser for one JSON value (after optional
leading whitespace), returning the value and the unconsumed rest. -/
def parseJValue : Nat → List Char → Option (JValue × List Char)
  | 0, _ => none
  | Nat.succ fuel, s =>
    match s.dropWhile Char.isWhitespace with
    | 'n' :: 'u' :: 'l' :: 'l' :: rest => some (JValue.jnull, rest)
    | 't' :: 'r' :: 'u' :: 'e' :: rest => some (JValue.jbool true, rest)
    | 'f' :: 'a' :: 'l' :: 's' :: 'e' :: rest => some (JValue.jbool false, rest)
    | '"' :: rest => (parseJString rest).map (fun r => (JValue.jstr r.1, r.2))
    | '[' :: rest =>
      match rest.dropWhile Char.isWhitespace with
      | ']' :: rest2 => some (JValue.jarr [], rest2)
      | rest1 => (parseJItems fuel rest1).map (fun r => (JValue.jarr r.1, r.2))
    | '\x7b' :: rest =>
      match rest.dropWhile Char.isWhitespace with
      | '\x7d' :: rest2 => some (JValue.jobj [], rest2)
      | rest1 => (parseJMembers fuel rest1).map (fun r => (JValue.jobj r.1, r.2))
    | '-' :: c :: rest =>
      if c.isDigit then
        let r := digitsToNat (c.toNat - '0'.toNat) rest
        some (JValue.jnum (-(r.1 : Int)), r.2)
      else none
    | c :: rest =>
      if c.isDigit then
        let r := digitsToNat (c.toNat - '0'.toNat) rest
        some (JValue.jnum (r.1 : Int), r.2)
      else none
    | [] => none

/-- Parse the members of a JSON object, positioned after `{` at the first key. -/
def parseJMembers : Nat → List Char → Option (List (List Char × JValue) × List Char)
  | 0, _ => none
  | Nat.succ fuel, s =>
    match s.dropWhile Char.isWhitespace with
    | '"' :: rest =>
      match parseJString rest with
      | none => none
      | some (key, rest2) =>
        match rest2.dropWhile Char.isWhitespace with
        | ':' :: rest4 =>
          match parseJValue fuel rest4 with
          | none => none
          | some (v, rest5) =>
            match rest5.dropWhile Char.isWhitespace with
            | ',' :: rest7 =>
              (parseJMembers fuel rest7).map (fun r => ((key, v) :: r.1, r.2))
            | '\x7d' :: rest7 => some ([(key, v)], rest7)
            | _ => none
        | _ => none
    | _ => none

/-- Parse the items of a JSON array, positioned after `[` at the first item. -/
def parseJItems : Nat → List Char → Option (List JValue × List Char)
  | 0, _ => none
  | Nat.succ fuel, s =>
    match parseJValue fuel s with
    | none => none
    | some (v, rest) =>
      match rest.dropWhile Char.isWhitespace with
      | ',' :: rest2 => (parseJItems fuel rest2).map (fun r => (v :: r.1, r.2))
      | ']' :: rest2 => some ([v], rest2)
      | _ => none

end

/-- `json.loads`: parse one JSON document; only trailing whitespace may remain. -/
def json_loads (s : List Char) : Option JValue :=
  match parseJValue (2 * s.length + 2) s with
  | some (v, rest) => if rest.dropWhile Char.isWhitespace = [] then some v else none
  | none => none

/-- The lazy group `(\x7b.*?\x7d)\)` after the opening brace: find the first
closing brace that is immediately followed by `)`; return the text before it
and the rest after the `)`. -/
def findBody : List Char → Option (List Char × List Char)
  | [] => none
  | '\x7d' :: rest =>
    match rest with
    | ')' :: rest2 => some ([], rest2)
    | _ => (findBody rest).map (fun r => ('\x7d' :: r.1, r.2))
  | c :: rest => (findBody rest).map (fun r => (c :: r.1, r.2))

/-- Match the full pattern anchored at the start of `s`: the marker, a
non-empty run of name characters, optional whitespace, `(`, and the lazily
captured braced group followed by `)`.  Returns the captured name and group. -/
def matchToolAt (s : List Char) : Option (List Char × List Char) :=
  if marker.isPrefixOf s then
    let r0 := s.drop marker.length
    let name := r0.takeWhile isNameChar
    if name = [] then none
    else
      match (r0.drop name.length).dropWhile Char.isWhitespace with
      | '(' :: '\x7b' :: r2 =>
        match findBody r2 with
        | some (body, _) => some (name, '\x7b' :: (body ++ ['\x7d']))
        | none => none
      | _ => none
  else none

/-- `re.search`: try the pattern at each start position, left to right. -/
def searchToolCall : List Char → Option (List Char × List Char)
  | [] => none
  | c :: t =>
    match matchToolAt (c :: t) with
    | some m => some m
    | none => searchToolCall t

/-- `parse_tool_call` (gizmo.py lines 422-440): search for `⚡️name({...})`;
on a match, parse the braced group with `json.loads`, malformed JSON yielding
empty arguments rather than an exception; no match yields `(None, {})`. -/
def parse_tool_call (content : List Char) : Option (List Char) × JValue :=
  match searchToolCall content with
  | some (tool_name, json_str) =>
    match json_loads json_str with
    | some args => (some tool_name, args)
    | none => (some tool_name, JValue.jobj [])
  | none => (none, JValue.jobj [])

/-- The C3 text with well-formed JSON arguments:
`Let me check. ⚡️lookup_weather({"city": "Rome"})`. -/
def toolCallTextGood : List Char :=
  "Let me check. ".data ++ marker ++ "lookup_weather(\x7b\"city\": \"Rome\"\x7d)".data

/-- The same text with the JSON truncated to `{"city": "Rome}` (an unterminated
string literal): the regular expression still captures the braced group, but
`json.loads` rejects it. -/
def toolCallTextBad : List Char :=
  "Let me check. ".data ++ marker ++ "lookup_weather(\x7b\"city\": \"Rome\x7d)".data

/-- C3: parsing text containing `⚡️lookup_weather({"city": "Rome"})` yields the
tool name `lookup_weather` with arguments `{"city": "Rome"}`, and parsing the
same text with the JSON truncated yields the same tool name with empty
arguments `{}` instead of raising an exception. -/
theorem parse_tool_call_spec :
    parse_tool_call toolCallTextGood =
      (some "lookup_weather".data, JValue.jobj [("city".data, JValue.jstr "Rome".data)]) ∧
    parse_tool_call toolCallTextBad = (some "lookup_weather".data, JValue.jobj []) :=
  ⟨rfl, rfl⟩

/-! ## The MCP bridge and manager (gizmo.py lines 132-253) -/

/-- A Python call may return a value or raise an exception with a message. -/
inductive PyOutcome (α : Type) where
  | ok (a : α)
  | raises (msg : String)

/-- Observable state of one `OllamaMCP` bridge: the `threading.Event`
`initialized` (as the boolean `initSet`: whether the event was set within the
bounded wait), the tool catalog and the two queues.  The background dispatch
loop is modelled after it has terminated — the situation all claims settled
against this state are about: no consumer drains `request_queue` and nothing
further is put on `response_queue`. -/
structure OllamaMCPState where
  initSet : Bool
  tools : List String
  response_queue : List String
  request_queue : List (String × JValue)

/-- The state `OllamaMCP.__init__` (lines 133-146) constructs: event unset,
no tools, both queues empty. -/
def newOllamaMCP : OllamaMCPState :=
  { initSet := false, tools := [], response_queue := [], request_queue := [] }

/-- `_async_run`'s exception handler (lines 178-181): on any exception `e`
escaping the session block, the readiness event is set, one error string is
pushed onto the response queue, and the background thread terminates. -/
def async_run_except (e : String) (st : OllamaMCPState) : OllamaMCPState :=
  { st with initSet := true,
            response_queue := st.response_queue ++ ["MCP initialization error: " ++ e] }

/-- The bound of `self.initialized.wait(timeout=30)` in `call_tool`. -/
def INIT_WAIT_TIMEOUT : Nat := 30

/-- What one `OllamaMCP.call_tool` invocation does, seen from the caller. -/
inductive CallResult where
  | timedOut (bound : Nat)
  | blocked
  | result (r : String)
deriving DecidableEq

/-- `OllamaMCP.call_tool` (lines 183-188) against a bridge whose dispatch loop
is not running: wait on the readiness event with the 30-unit bound (raising
`TimeoutError` when it is never set), then enqueue the request and block on
`response_queue.get()` — which returns immediately exactly when a payload is
already queued, and otherwise blocks forever, there being no producer left. -/
def OllamaMCP.call_tool (st : OllamaMCPState) (tool_name : String) (args : JValue) :
    CallResult × OllamaMCPState :=
  if st.initSet = false then
    (CallResult.timedOut INIT_WAIT_TIMEOUT, st)
  else
    let st1 := { st with request_queue := st.request_queue ++ [(tool_name, args)] }
    match st1.response_queue with
    | [] => (CallResult.blocked, st1)
    | r :: rs => (CallResult.result r, { st1 with response_queue := rs })

/-- Python `dict.get`. -/
def dictGet {α : Type} (d : List (String × α)) (k : String) : Option α :=
  (d.find? (fun p => p.1 == k)).map (fun p => p.2)

/-- Python `dict[k] = v`: replace any previous binding for `k`. -/
def dictInsert {α : Type} (d : List (String × α)) (k : String) (v : α) :
    List (String × α) :=
  (d.filter (fun p => p.1 != k)) ++ [(k, v)]

/-- `MCPManager`'s state: `clients` (server name → bridge) and `all_tools`
(tool name → server name). -/
structure MCPManagerState where
  clients : List (String × OllamaMCPState)
  all_tools : List (String × String)

/-- `MCPManager.call_tool` (lines 235-245).  `self.all_tools.get(tool_name)` is
truth-tested (`if not server_name`), so a missing key and the empty server name
both raise the tool-not-found `ValueError`; then the owning client is looked up
and the call delegated to it verbatim. -/
def MCPManager.call_tool (m : MCPManagerState) (tool_name : String) (args : JValue) :
    PyOutcome (CallResult × OllamaMCPState) :=
  match dictGet m.all_tools tool_name with
  | none =>
    PyOutcome.raises ("Tool '" ++ tool_name ++ "' not found in any connected server")
  | some server_name =>
    if server_name = "" then
      PyOutcome.raises ("Tool '" ++ tool_name ++ "' not found in any connected server")
    else
      match dictGet m.clients server_name with
      | none => PyOutcome.raises ("Server '" ++ server_name ++ "' not connected")
      | some client => PyOutcome.ok (OllamaMCP.call_tool client tool_name args)

/-- The per-server loop body of `MCPManager.initialize` (lines 211-227), folded
over the configured servers, each paired with the state its background run
reached: a client whose readiness event was set within the bound is stored in
`clients` and its tools merged into `all_tools`; otherwise the connection is
treated as timed out and the manager is unchanged. -/
def MCPManager.initServers (servers : List (String × OllamaMCPState)) : MCPManagerState :=
  servers.foldl
    (fun mgr sc =>
      if sc.2.initSet then
        { clients := dictInsert mgr.clients sc.1 sc.2,
          all_tools := sc.2.tools.foldl (fun m t => dictInsert m t sc.1) mgr.all_tools }
      else mgr)
    { clients := [], all_tools := [] }

/-- The observable outcome of `MCPManager.shutdown_all` (lines 247-253): how
many bridges had `shutdown()` invoked, the exception that propagated out of the
loop if any, and whether the trailing `clients.clear()` / `all_tools.clear()`
lines ran. -/
structure ShutdownReport where
  calls : Nat
  raised : Option String
  cleared : Bool
deriving DecidableEq

/-- `MCPManager.shutdown_all`, with each bridge's `shutdown()` outcome given as
`none` (returns normally) or `some e` (raises `e`): the `for` loop has no
exception handling, so the first raise propagates immediately and the
remaining bridges are never shut down. -/
def MCPManager.shutdown_all : List (Option String) → ShutdownReport
  | [] => { calls := 0, raised := none, cleared := true }
  | b :: bs =>
    match b with
    | some e => { calls := 1, raised := some e, cleared := false }
    | none =>
      let r := MCPManager.shutdown_all bs
      { calls := r.calls + 1, raised := r.raised, cleared := r.cleared }

/-- The observable action of `handle_tool_execution` (lines 372-420): the early
return, or exactly one continuation through `incorporate_tool_results` with the
given `tool_result` argument. -/
inductive HandleAction where
  | skipped
  | continuation (tool_result : String)
deriving DecidableEq

/-- `handle_tool_execution` (lines 372-420), with the final response text, the
presence of an MCP manager, the current stream flag, and the manager dispatch
abstracted as `tool_call` (it may raise: registry miss, bridge `TimeoutError`,
provider failure).  `str(result)` of a successful dispatch is the `ok`
payload; both failure branches build the same failure context string. -/
def handle_tool_execution (content_str : List Char) (mcp_present : Bool)
    (streamFlag : String) (tool_call : List Char → JValue → PyOutcome String) :
    HandleAction :=
  let flag := if pyIn marker content_str = true ∧ streamFlag = "true" then "false" else streamFlag
  if mcp_present = false ∨ flag = "true" then
    HandleAction.skipped
  else
    match parse_tool_call content_str with
    | (some tool_name, arguments) =>
      match tool_call tool_name arguments with
      | PyOutcome.ok r => HandleAction.continuation r
      | PyOutcome.raises e =>
        HandleAction.continuation
          ("The tool call failed with error: " ++ e ++ ". Suggest alternatives.")
    | (none, _) =>
      HandleAction.continuation
        "The tool call failed with error: Tool not found. Suggest alternatives."

/-- C7: a call issued while the readiness event is never set raises
`TimeoutError` after the bounded wait of 30 time units, leaving the bridge
untouched: no request is enqueued and no result is returned. -/
theorem call_tool_timeout (st : OllamaMCPState) (tool_name : String) (args : JValue)
    (h : st.initSet = false) :
    OllamaMCP.call_tool st tool_name args = (CallResult.timedOut 30, st) := by
  simp [OllamaMCP.call_tool, h, INIT_WAIT_TIMEOUT]

/-- Witness for `call_tool_timeout` at a freshly constructed bridge. -/
theorem call_tool_timeout_witness :
    OllamaMCP.call_tool newOllamaMCP "lookup_weather" (JValue.jobj []) =
      (CallResult.timedOut 30, newOllamaMCP) :=
  call_tool_timeout newOllamaMCP "lookup_weather" (JValue.jobj []) rfl

/-- C2 counterexample: after the dispatch loop dies through the failure path,
only the FIRST subsequent call returns the single queued error string; the
SECOND subsequent call blocks forever on the now-empty response queue, so not
every subsequent call immediately returns a `ToolError` result. -/
theorem dead_session_counterexample :
    (OllamaMCP.call_tool (async_run_except "boom" newOllamaMCP) "t" (JValue.jobj [])).1 =
      CallResult.result "MCP initialization error: boom" ∧
    (OllamaMCP.call_tool
        (OllamaMCP.call_tool (async_run_except "boom" newOllamaMCP) "t" (JValue.jobj [])).2
        "t" (JValue.jobj [])).1 = CallResult.blocked :=
  ⟨rfl, rfl⟩

/-- C2 amended: when the dispatch loop has terminated through the failure
path, exactly one error message describing the failed session is queued; the
first subsequent `call_tool` returns it immediately, and every later call —
the outbound queue then being empty and without a producer — blocks forever
instead of returning a result. -/
theorem dead_session_calls (e tool1 tool2 : String) (args1 args2 : JValue) :
    (OllamaMCP.call_tool (async_run_except e newOllamaMCP) tool1 args1).1 =
      CallResult.result ("MCP initialization error: " ++ e) ∧
    (OllamaMCP.call_tool
        (OllamaMCP.call_tool (async_run_except e newOllamaMCP) tool1 args1).2
        tool2 args2).1 = CallResult.blocked :=
  ⟨rfl, rfl⟩

/-- A bridge as connected by a server configured under the empty-string name:
ready, with one tool `"t"`. -/
def emptyNameClient : OllamaMCPState :=
  { initSet := true, tools := ["t"], response_queue := [], request_queue := [] }

/-- The manager state `initialize` builds from that configuration: the tool
map binds `"t"` to the server name `""`. -/
def emptyNameManager : MCPManagerState :=
  MCPManager.initServers [("", emptyNameClient)]

/-- C6 counterexample: a reachable registry state (a server configured under
the empty-string name) in which a registered tool name is NOT delegated to its
owning bridge: `if not server_name` is true for the empty string, so the call
raises the tool-not-found `ValueError` instead. -/
theorem manager_call_tool_counterexample :
    dictGet emptyNameManager.all_tools "t" = some "" ∧
    MCPManager.call_tool emptyNameManager "t" (JValue.jobj []) =
      PyOutcome.raises "Tool 't' not found in any connected server" ∧
    MCPManager.call_tool emptyNameManager "t" (JValue.jobj []) ≠
      PyOutcome.ok (OllamaMCP.call_tool emptyNameClient "t" (JValue.jobj [])) := by
  refine ⟨rfl, rfl, ?_⟩
  intro h
  have h2 : (PyOutcome.raises "Tool 't' not found in any connected server"
      : PyOutcome (CallResult × OllamaMCPState)) =
      PyOutcome.ok (OllamaMCP.call_tool emptyNameClient "t" (JValue.jobj [])) := h
  exact PyOutcome.noConfusion h2

/-- C6 amended: a name absent from `all_tools` raises the tool-not-found error
immediately, consulting no bridge and never blocking; a registered name whose
owning server name is non-empty and present in `clients` is delegated to that
bridge, whose result — error results included — is returned verbatim. -/
theorem manager_call_tool_amended (m : MCPManagerState) (tool_name : String)
    (args : JValue) :
    (dictGet m.all_tools tool_name = none →
      MCPManager.call_tool m tool_name args =
        PyOutcome.raises ("Tool '" ++ tool_name ++ "' not found in any connected server")) ∧
    (∀ server_name client,
      dictGet m.all_tools tool_name = some server_name → server_name ≠ "" →
      dictGet m.clients server_name = some client →
      MCPManager.call_tool m tool_name args =
        PyOutcome.ok (OllamaMCP.call_tool client tool_name args)) := by
  constructor
  · intro h
    simp [MCPManager.call_tool, h]
  · intro server_name client h1 h2 h3
    simp [MCPManager.call_tool, h1, h2, h3]

/-- A ready bridge under the server name `"srv"` with one tool and one queued
payload. -/
def srvClient : OllamaMCPState :=
  { initSet := true, tools := ["t"], response_queue := ["payload"], request_queue := [] }

/-- The manager state built from that configuration. -/
def srvManager : MCPManagerState :=
  MCPManager.initServers [("srv", srvClient)]

/-- Witness for `manager_call_tool_amended`: the registered tool `"t"` is
delegated to its bridge verbatim. -/
theorem manager_call_tool_amended_witness :
    MCPManager.call_tool srvManager "t" (JValue.jobj []) =
      PyOutcome.ok (OllamaMCP.call_tool srvClient "t" (JValue.jobj [])) :=
  (manager_call_tool_amended srvManager "t" (JValue.jobj [])).2 "srv" srvClient rfl
    (by decide) rfl

/-- C8 counterexample: with two connected bridges whose first `shutdown()`
raises, the loop short-circuits: only one of the two bridges has `shutdown()`
invoked, the exception propagates instead of being aggregated, and the maps
are never cleared. -/
theorem shutdown_all_counterexample :
    MCPManager.shutdown_all [some "boom", none] =
      { calls := 1, raised := some "boom", cleared := false } ∧
    [some "boom", (none : Option String)].length = 2 :=
  ⟨rfl, rfl⟩

/-- C8 amended: `shutdown_all` invokes `shutdown()` in order only up to and
including the first bridge whose shutdown raises; that exception propagates
immediately, the remaining bridges are skipped and the maps are not cleared.
Only when no shutdown raises is `shutdown()` invoked on every bridge, after
which both maps are cleared. -/
theorem shutdown_all_amended (pre post : List (Option String)) (e : String)
    (hpre : ∀ b ∈ pre, b = none) :
    MCPManager.shutdown_all (pre ++ some e :: post) =
      { calls := pre.length + 1, raised := some e, cleared := false } ∧
    MCPManager.shutdown_all pre =
      { calls := pre.length, raised := none, cleared := true } := by
  induction pre with
  | nil => exact ⟨rfl, rfl⟩
  | cons b bs ih =>
    have hb : b = none := hpre b (List.mem_cons_self _ _)
    subst hb
    have hbs : ∀ x ∈ bs, x = none := fun x hx => hpre x (List.mem_cons_of_mem _ hx)
    obtain ⟨ih1, ih2⟩ := ih hbs
    constructor
    · show MCPManager.shutdown_all (none :: (bs ++ some e :: post)) = _
      simp [MCPManager.shutdown_all, ih1]
    · show MCPManager.shutdown_all (none :: bs) = _
      simp [MCPManager.shutdown_all, ih2]

/-- Witness for `shutdown_all_amended` at the bridge list
`[none, some "x", none]`. -/
theorem shutdown_all_amended_witness :
    MCPManager.shutdown_all [none, some "x", none] =
      { calls := 2, raised := some "x", cleared := false } ∧
    MCPManager.shutdown_all [none] =
      { calls := 1, raised := none, cleared := true } :=
  shutdown_all_amended [none] [none] "x"
    (by intro b hb; rw [List.mem_singleton] at hb; exact hb)

/-- C10: if the background session raises during initialization, the `except`
handler sets the readiness event anyway, leaves the tool catalog empty and
queues the error payload on the response queue; the manager's initialization
loop then sees the event set within its bound and registers the provider as a
connected client contributing no tool-map entries, rather than recording it as
unavailable and excluding it. -/
theorem init_failure_still_registered (e server_name : String) :
    (async_run_except e newOllamaMCP).initSet = true ∧
    (async_run_except e newOllamaMCP).tools = [] ∧
    (async_run_except e newOllamaMCP).response_queue =
      ["MCP initialization error: " ++ e] ∧
    MCPManager.initServers [(server_name, async_run_except e newOllamaMCP)] =
      { clients := [(server_name, async_run_except e newOllamaMCP)], all_tools := [] } :=
  ⟨rfl, rfl, rfl, rfl⟩

/-- C5: with a manager present, a suspended turn (the stream flag already
`"false"`, or the marker present in the final text, which forces suspension)
always ends in exactly one continuation through `incorporate_tool_results`,
never in a propagated exception: any dispatch exception becomes the failure
continuation, and a suspended turn whose text holds no well-formed tool call
becomes the tool-not-found continuation. -/
theorem handle_tool_execution_total (content_str : List Char) (streamFlag : String)
    (tool_call : List Char → JValue → PyOutcome String)
    (h : streamFlag = "false" ∨ pyIn marker content_str = true) :
    (∃ s, handle_tool_execution content_str true streamFlag tool_call =
        HandleAction.continuation s) ∧
    (∀ tool_name arguments e,
      parse_tool_call content_str = (some tool_name, arguments) →
      tool_call tool_name arguments = PyOutcome.raises e →
      handle_tool_execution content_str true streamFlag tool_call =
        HandleAction.continuation
          ("The tool call failed with error: " ++ e ++ ". Suggest alternatives.")) ∧
    ((parse_tool_call content_str).1 = none →
      handle_tool_execution content_str true streamFlag tool_call =
        HandleAction.continuation
          "The tool call failed with error: Tool not found. Suggest alternatives.") := by
  have hflag :
      (if pyIn marker content_str = true ∧ streamFlag = "true" then "false" else streamFlag)
        ≠ "true" := by
    rcases h with hf | hm
    · subst hf
      rw [if_neg (fun hc => absurd hc.2 (by decide))]
      decide
    · by_cases ht : streamFlag = "true"
      · rw [if_pos ⟨hm, ht⟩]
        decide
      · rw [if_neg (fun hc => ht hc.2)]
        exact ht
  have hrun : handle_tool_execution content_str true streamFlag tool_call =
      match parse_tool_call content_str with
      | (some tool_name, arguments) =>
        match tool_call tool_name arguments with
        | PyOutcome.ok r => HandleAction.continuation r
        | PyOutcome.raises e =>
          HandleAction.continuation
            ("The tool call failed with error: " ++ e ++ ". Suggest alternatives.")
      | (none, _) =>
        HandleAction.continuation
          "The tool call failed with error: Tool not found. Suggest alternatives." := by
    simp only [handle_tool_execution]
    rw [if_neg]
    rintro (hc | hc)
    · exact absurd hc (by decide)
    · exact hflag hc
  refine ⟨?_, ?_, ?_⟩
  · rcases hp : parse_tool_call content_str with ⟨o, a⟩
    cases o with
    | none => exact ⟨_, by rw [hrun, hp]⟩
    | some n =>
      cases htc : tool_call n a with
      | ok r => exact ⟨r, by rw [hrun, hp]; dsimp only; rw [htc]⟩
      | raises e2 => exact ⟨_, by rw [hrun, hp]; dsimp only; rw [htc]⟩
  · intro tool_name arguments e hp htc
    rw [hrun, hp]
    dsimp only
    rw [htc]
  · intro hp
    rcases hq : parse_tool_call content_str with ⟨o, a⟩
    rw [hq] at hp
    simp only at hp
    subst hp
    rw [hrun, hq]

/-- Witness for `handle_tool_execution_total`: the final text is just the
marker (no well-formed call) and the stream flag is still `"true"`, so the
marker forces suspension and the turn ends in the tool-not-found
continuation. -/
theorem handle_tool_execution_total_witness :
    pyIn marker marker = true ∧
    handle_tool_execution marker true "true" (fun _ _ => PyOutcome.raises "x") =
      HandleAction.continuation
        "The tool call failed with error: Tool not found. Suggest alternatives." :=
  ⟨by decide,
    (handle_tool_execution_total marker "true" _ (Or.inr (by decide))).2.2 rfl⟩

end Gizmo
